import Mathlib

/-!
Verification of the conversation-store core of the `prompt_hub_api` service
(`src/services/session_service.py`, `src/db_models.py`, `src/config.py`,
and the message endpoint of `src/main.py`).

The store state is embedded shallowly: the two relations `sessions` and
`messages` become lists of records, the database clock `datetime.utcnow()`
becomes an explicit `now : Int` argument (microseconds since an arbitrary
epoch), and `uuid.uuid4()` becomes a fresh-id counter carried in the state.
Each method of `SessionService` becomes a pure function on `Store`;
fallible methods return `Option`, mirroring the Python `None` outcome.
The `ondelete="CASCADE"` foreign key of `db_models.Message.session_id` is
modelled by deleting the owned messages together with the session row.
-/

namespace PromptHub

/-- From `config.Settings.default_claude_model`. -/
def default_claude_model : String := "claude-3-sonnet-20240229"

/-- From `config.Settings.default_gemini_model`. -/
def default_gemini_model : String := "gemini-pro"

/-- From `models.AIProvider`: the two supported backends. -/
inductive AIProvider
  | claude
  | gemini
deriving DecidableEq, Repr

/-- The string value of the Python `str`-enum member. -/
def AIProvider.str : AIProvider → String
  | .claude => "claude"
  | .gemini => "gemini"

/-- Row of the `sessions` relation (`db_models.Session`). -/
structure DBSession where
  id : Nat
  ai_provider : String
  model : String
  system_prompt : String
  created_at : Int
  updated_at : Int
deriving DecidableEq, Repr

/-- Row of the `messages` relation (`db_models.Message`).  The `order`
column is an SQL integer; the service computes it as
`coalesce(max(order), -1) + 1`, so it is embedded as `Int`. -/
structure DBMessage where
  id : Nat
  session_id : Nat
  role : String
  content : String
  created_at : Int
  order : Int
deriving DecidableEq, Repr

/-- The durable state: the two relations plus a fresh-id source standing
in for `uuid.uuid4()` (all generated ids are distinct). -/
structure Store where
  sessions : List DBSession
  messages : List DBMessage
  next_id : Nat
deriving Repr

/-- From `models.SessionCreate`: payload of the create operation.
`model` is optional. -/
structure SessionCreate where
  ai_provider : AIProvider
  model : Option String
  system_prompt : String
deriving Repr

/-- From `models.SessionUpdate`: a patch; absent fields are `none`. -/
structure SessionUpdate where
  system_prompt : Option String
  model : Option String
deriving Repr

/-- Python truthiness of an optional string: `None` and `""` are falsy.
`create_session` tests `if not model:`. -/
def pyFalsy : Option String → Bool
  | none => true
  | some m => m == ""

/-- The model actually stored by `SessionService.create_session`: the
supplied model when truthy, otherwise the provider-specific default. -/
def resolvedModel (provider : AIProvider) (model : Option String) : String :=
  if pyFalsy model then
    if provider = AIProvider.claude then default_claude_model else default_gemini_model
  else
    model.getD ""

/-- `SessionService.create_session`: builds a new row with
`created_at = updated_at = now`, a fresh id, and the resolved model. -/
def create_session (s : Store) (d : SessionCreate) (now : Int) : Store × DBSession :=
  let sess : DBSession :=
    { id := s.next_id
      ai_provider := d.ai_provider.str
      model := resolvedModel d.ai_provider d.model
      system_prompt := d.system_prompt
      created_at := now
      updated_at := now }
  ({ sessions := s.sessions ++ [sess], messages := s.messages, next_id := s.next_id + 1 }, sess)

/-- `SessionService.get_session`: `select(Session).where(Session.id == session_id)`,
first row or `None`. -/
def get_session (s : Store) (sid : Nat) : Option DBSession :=
  s.sessions.find? (fun t => t.id == sid)

/-- `SessionService.update_session`: patch only the present fields,
refresh `updated_at`; `None` when the session is absent. -/
def update_session (s : Store) (sid : Nat) (u : SessionUpdate) (now : Int) :
    Option (Store × DBSession) :=
  match get_session s sid with
  | none => none
  | some sess =>
    let sess' : DBSession :=
      { sess with
        system_prompt := match u.system_prompt with
          | some p => p
          | none => sess.system_prompt
        model := match u.model with
          | some m => m
          | none => sess.model
        updated_at := now }
    some ({ s with sessions := s.sessions.map (fun t => if t.id == sid then sess' else t) },
          sess')

/-- The messages of one session, in insertion order:
`where(Message.session_id == session_id)`. -/
def sessionMessages (s : Store) (sid : Nat) : List DBMessage :=
  s.messages.filter (fun m => m.session_id == sid)

/-- The order-assignment query of `SessionService.add_message`:
`select(coalesce(max(Message.order), -1) + 1).where(Message.session_id == session_id)`. -/
def next_order (s : Store) (sid : Nat) : Int :=
  ((sessionMessages s sid).foldl (fun a m => max a m.order) (-1)) + 1

/-- `SessionService.add_message`: `None` when the session is absent;
otherwise insert a message carrying the store-computed order and refresh
the `updated_at` of the session. -/
def add_message (s : Store) (sid : Nat) (role content : String) (now : Int) :
    Option (Store × DBSession × DBMessage) :=
  match get_session s sid with
  | none => none
  | some sess =>
    let msg : DBMessage :=
      { id := s.next_id
        session_id := sid
        role := role
        content := content
        created_at := now
        order := next_order s sid }
    let sess' : DBSession := { sess with updated_at := now }
    some ({ sessions := s.sessions.map (fun t => if t.id == sid then sess' else t)
            messages := s.messages ++ [msg]
            next_id := s.next_id + 1 },
          sess', msg)

/-- `SessionService.delete_session`: `delete(Session).where(Session.id == session_id)`;
the `ondelete="CASCADE"` foreign key removes the owned messages; returns
whether a row existed. -/
def delete_session (s : Store) (sid : Nat) : Store × Bool :=
  let existed := s.sessions.any (fun t => t.id == sid)
  ({ s with
     sessions := s.sessions.filter (fun t => !(t.id == sid))
     messages := s.messages.filter (fun m => !(m.session_id == sid)) },
   existed)

/-- One hour of the clock, in microseconds (`timedelta(hours=1)`). -/
def hourMicros : Int := 3600000000

/-- `SessionService.cleanup_old_sessions`:
`delete(Session).where(Session.updated_at < now - timedelta(hours=hours))`,
cascading to messages, returning the number of deleted sessions. -/
def cleanup_old_sessions (s : Store) (hours : Int) (now : Int) : Store × Nat :=
  let cutoff := now - hours * hourMicros
  let deleted := s.sessions.filter (fun t => t.updated_at < cutoff)
  let deletedIds := deleted.map (fun t => t.id)
  ({ s with
     sessions := s.sessions.filter (fun t => !(t.updated_at < cutoff))
     messages := s.messages.filter (fun m => !(deletedIds.contains m.session_id)) },
   deleted.length)

/-- `SessionService.get_messages_for_session`:
`select(Message).where(Message.session_id == session_id).order_by(Message.order)`. -/
def get_messages_for_session (s : Store) (sid : Nat) : List DBMessage :=
  (sessionMessages s sid).mergeSort (fun a b => a.order ≤ b.order)

/-- The `POST /api/sessions/{id}/messages` handler of `main.py`, with the
provider call abstracted as the `aiResponse` string: it looks the session
up, then appends the human message and the assistant reply through
`add_message` with the literal roles `"human"` and `"assistant"`. -/
def send_message (s : Store) (sid : Nat) (content aiResponse : String)
    (now1 now2 : Int) : Option Store :=
  match get_session s sid with
  | none => none
  | some _ =>
    match add_message s sid "human" content now1 with
    | none => none
    | some (s1, _, _) =>
      match add_message s1 sid "assistant" aiResponse now2 with
      | none => none
      | some (s2, _, _) => some s2

/-- A sequence of `add_message` calls on one session, each supplying its
own role, content and clock reading; a failed call leaves the state as is. -/
def append_all (s : Store) (sid : Nat) (items : List (String × String × Int)) : Store :=
  items.foldl
    (fun acc it =>
      match add_message acc sid it.1 it.2.1 it.2.2 with
      | none => acc
      | some (s', _, _) => s')
    s

/-! ### Helper lemmas -/

theorem int_le_foldl_max (l : List Int) : ∀ a : Int, a ≤ l.foldl max a := by
  induction l with
  | nil => intro a; simp
  | cons b l ih =>
    intro a
    rw [List.foldl_cons]
    exact le_trans (le_max_left a b) (ih (max a b))

theorem int_mem_le_foldl_max (l : List Int) : ∀ (a x : Int), x ∈ l → x ≤ l.foldl max a := by
  induction l with
  | nil => intro a x hx; cases hx
  | cons b l ih =>
    intro a x hx
    rw [List.foldl_cons]
    rcases List.mem_cons.mp hx with h | h
    · subst h
      exact le_trans (le_max_right a x) (int_le_foldl_max l (max a x))
    · exact ih (max a b) x h

theorem int_foldl_max_le (l : List Int) :
    ∀ (a c : Int), a ≤ c → (∀ x ∈ l, x ≤ c) → l.foldl max a ≤ c := by
  induction l with
  | nil => intro a c ha _; simpa using ha
  | cons b l ih =>
    intro a c ha h
    rw [List.foldl_cons]
    exact ih (max a b) c (max_le ha (h b (List.mem_cons_self b l)))
      (fun x hx => h x (List.mem_cons_of_mem b hx))

theorem foldl_max_order_eq_map (l : List DBMessage) (a : Int) :
    l.foldl (fun a m => max a m.order) a = (l.map (fun m => m.order)).foldl max a := by
  rw [List.foldl_map]

theorem foldl_max_range (k : Nat) :
    ((List.range k).map (fun n => Int.ofNat n)).foldl max (-1) = (k : Int) - 1 := by
  induction k with
  | zero => simp
  | succ k ih =>
    rw [List.range_succ, List.map_append, List.foldl_append, ih]
    have hk : (k : Int) - 1 ≤ (k : Int) := by omega
    rw [List.map_singleton, List.foldl_cons, List.foldl_nil]
    show max ((k : Int) - 1) (Int.ofNat k) = ((k : Nat) + 1 : Int) - 1
    rw [Int.ofNat_eq_natCast, max_eq_right hk]
    ring

theorem find?_map_kept (l : List DBSession) (f : DBSession → DBSession) (sid : Nat)
    (hf : ∀ t, (f t).id = t.id) :
    (l.map f).find? (fun t => t.id == sid) = (l.find? (fun t => t.id == sid)).map f := by
  induction l with
  | nil => rfl
  | cons a l ih =>
    by_cases h : a.id = sid
    · rw [List.map_cons, List.find?_cons_of_pos _ (by simp [hf, h]),
        List.find?_cons_of_pos _ (by simp [h])]
      rfl
    · rw [List.map_cons, List.find?_cons_of_neg _ (by simp [hf, h]),
        List.find?_cons_of_neg _ (by simp [h]), ih]

/-- Inversion of a successful `add_message` call: the shape of the new
state, the new message, and the touched session. -/
theorem add_message_some_inv {s : Store} {sid : Nat} {r c : String} {n : Int}
    {s' : Store} {x : DBSession} {msg : DBMessage}
    (h : add_message s sid r c n = some (s', x, msg)) :
    ∃ sess, get_session s sid = some sess ∧
      x = { sess with updated_at := n } ∧
      msg = { id := s.next_id, session_id := sid, role := r, content := c,
              created_at := n, order := next_order s sid } ∧
      s' = { sessions := s.sessions.map (fun t => if t.id == sid then x else t),
             messages := s.messages ++ [msg],
             next_id := s.next_id + 1 } := by
  cases hg : get_session s sid with
  | none => rw [add_message, hg] at h; cases h
  | some sess =>
    simp only [add_message, hg, Option.some.injEq, Prod.mk.injEq] at h
    obtain ⟨h1, h2, h3⟩ := h
    subst h1
    subst h2
    subst h3
    exact ⟨sess, rfl, rfl, rfl, rfl⟩

/-- The id of the session found by `get_session` is the id looked up. -/
theorem get_session_id {s : Store} {sid : Nat} {sess : DBSession}
    (h : get_session s sid = some sess) : sess.id = sid := by
  have := List.find?_some h
  simpa using this

/-- After a successful `add_message`, the session is still present, now
carrying the refreshed `updated_at`. -/
theorem get_session_after_add {s : Store} {sid : Nat} {r c : String} {n : Int}
    {s' : Store} {x : DBSession} {msg : DBMessage}
    (h : add_message s sid r c n = some (s', x, msg)) :
    get_session s' sid = some x := by
  obtain ⟨sess, hg, hx, hmsg, hs'⟩ := add_message_some_inv h
  have hid : sess.id = sid := get_session_id hg
  have hxid : x.id = sid := by rw [hx]; exact hid
  have hf : ∀ t : DBSession, ((fun t => if t.id == sid then x else t) t).id = t.id := by
    intro t
    by_cases ht : t.id = sid
    · simp [ht, hxid]
    · simp [ht]
  rw [hs']
  show (s.sessions.map (fun t => if t.id == sid then x else t)).find?
      (fun t => t.id == sid) = some x
  rw [find?_map_kept _ _ _ hf]
  rw [get_session] at hg
  rw [hg]
  simp [hid]

/-- After a successful `add_message`, the messages of the session are the
old ones with the new message appended. -/
theorem sessionMessages_after_add {s : Store} {sid : Nat} {r c : String} {n : Int}
    {s' : Store} {x : DBSession} {msg : DBMessage}
    (h : add_message s sid r c n = some (s', x, msg)) :
    sessionMessages s' sid = sessionMessages s sid ++ [msg] := by
  obtain ⟨sess, hg, hx, hmsg, hs'⟩ := add_message_some_inv h
  rw [hs']
  show (s.messages ++ [msg]).filter (fun m => m.session_id == sid) = _
  rw [List.filter_append]
  have : msg.session_id = sid := by rw [hmsg]
  simp [sessionMessages, this]

/-! ### Concrete stores used by the witnesses -/

/-- The empty store. -/
def storeE : Store := { sessions := [], messages := [], next_id := 0 }

/-- A session row used by witnesses. -/
def sessA : DBSession :=
  { id := 0, ai_provider := "claude", model := "claude-3-sonnet-20240229",
    system_prompt := "You are helpful", created_at := 5, updated_at := 5 }

/-- A one-session store with no messages. -/
def storeA : Store := { sessions := [sessA], messages := [], next_id := 1 }

/-! ### Claims -/

/-- C1: `add_message` assigns the order of the new message as one more
than the current maximum order among the messages of the session, and 0
when the session has no messages; the order equals the store-computed
`next_order` and does not depend on the caller-supplied role, content or
clock. -/
theorem add_message_assigns_next_order (s : Store) (sid : Nat) (role content : String)
    (now : Int) (sess : DBSession) (hs : get_session s sid = some sess) :
    ∃ p : Store × DBSession × DBMessage,
      add_message s sid role content now = some p ∧
      p.2.2.order = next_order s sid ∧
      (sessionMessages s sid = [] → p.2.2.order = 0) ∧
      (∀ mx : Int, 0 ≤ mx →
        (∃ m ∈ sessionMessages s sid, m.order = mx) →
        (∀ m ∈ sessionMessages s sid, m.order ≤ mx) →
        p.2.2.order = mx + 1) ∧
      (∀ r2 c2 : String, ∀ n2 : Int, ∃ q : Store × DBSession × DBMessage,
        add_message s sid r2 c2 n2 = some q ∧ q.2.2.order = p.2.2.order) := by
  refine ⟨_, by rw [add_message, hs], rfl, ?_, ?_, ?_⟩
  · intro he
    show next_order s sid = 0
    rw [next_order, he]
    rfl
  · intro mx h0 hex hub
    show next_order s sid = mx + 1
    rw [next_order, foldl_max_order_eq_map]
    have hmax : ((sessionMessages s sid).map (fun m => m.order)).foldl max (-1) = mx := by
      apply le_antisymm
      · apply int_foldl_max_le _ _ _ (by omega)
        intro y hy
        obtain ⟨m, hm, hmy⟩ := List.mem_map.mp hy
        rw [← hmy]
        exact hub m hm
      · obtain ⟨m, hm, hmo⟩ := hex
        exact int_mem_le_foldl_max _ _ _ (List.mem_map.mpr ⟨m, hm, hmo⟩)
    rw [hmax]
  · intro r2 c2 n2
    obtain ⟨q, hq⟩ : ∃ q, add_message s sid r2 c2 n2 = some q := ⟨_, by rw [add_message, hs]⟩
    refine ⟨q, hq, ?_⟩
    obtain ⟨sess2, hg2, hx2, hm2, hs2⟩ := add_message_some_inv hq
    rw [hm2]

/-- C1 witness: on a one-session store with no messages the hypotheses
hold and the theorem applies. -/
theorem add_message_assigns_next_order_witness :
    get_session storeA 0 = some sessA ∧
    (∃ p : Store × DBSession × DBMessage,
      add_message storeA 0 "human" "Hi" 6 = some p ∧
      p.2.2.order = next_order storeA 0 ∧
      (sessionMessages storeA 0 = [] → p.2.2.order = 0) ∧
      (∀ mx : Int, 0 ≤ mx →
        (∃ m ∈ sessionMessages storeA 0, m.order = mx) →
        (∀ m ∈ sessionMessages storeA 0, m.order ≤ mx) →
        p.2.2.order = mx + 1) ∧
      (∀ r2 c2 : String, ∀ n2 : Int, ∃ q : Store × DBSession × DBMessage,
        add_message storeA 0 r2 c2 n2 = some q ∧ q.2.2.order = p.2.2.order)) :=
  ⟨rfl, add_message_assigns_next_order storeA 0 "human" "Hi" 6 sessA rfl⟩

/-- Induction for C2: appending any sequence of messages to a session
whose order values are exactly `0, ..., k-1` extends them to
`0, ..., k + N - 1`. -/
theorem append_all_orders_aux (sid : Nat) (items : List (String × String × Int)) :
    ∀ (s : Store) (k : Nat),
      (get_session s sid).isSome = true →
      (sessionMessages s sid).map (fun m => m.order)
        = (List.range k).map (fun n => Int.ofNat n) →
      (get_session (append_all s sid items) sid).isSome = true ∧
      (sessionMessages (append_all s sid items) sid).map (fun m => m.order)
        = (List.range (k + items.length)).map (fun n => Int.ofNat n) := by
  induction items with
  | nil =>
    intro s k h1 h2
    exact ⟨by simpa [append_all] using h1, by simpa [append_all] using h2⟩
  | cons it items ih =>
    intro s k h1 h2
    obtain ⟨sess, hg⟩ := Option.isSome_iff_exists.mp h1
    obtain ⟨⟨s', x, msg⟩, hp⟩ :
        ∃ p : Store × DBSession × DBMessage,
          add_message s sid it.1 it.2.1 it.2.2 = some p := ⟨_, by rw [add_message, hg]⟩
    have happ : append_all s sid (it :: items) = append_all s' sid items := by
      simp [append_all, hp]
    have h1' : get_session s' sid = some x := get_session_after_add hp
    have h2' : sessionMessages s' sid = sessionMessages s sid ++ [msg] :=
      sessionMessages_after_add hp
    have horder : msg.order = Int.ofNat k := by
      obtain ⟨sess0, hg0, hx0, hm0, hs0⟩ := add_message_some_inv hp
      rw [hm0]
      show next_order s sid = Int.ofNat k
      rw [next_order, foldl_max_order_eq_map, h2, foldl_max_range,
        Int.ofNat_eq_natCast]
      ring
    have h2s : (sessionMessages s' sid).map (fun m => m.order)
        = (List.range (k + 1)).map (fun n => Int.ofNat n) := by
      rw [h2', List.map_append, h2, List.range_succ, List.map_append]
      simp [horder]
    have hres := ih s' (k + 1) (by rw [h1']; rfl) h2s
    have hlen : k + 1 + items.length = k + (it :: items).length := by
      simp [List.length_cons]
      omega
    rw [happ]
    exact ⟨hres.1, by rw [hres.2, hlen]⟩

/-- C2: starting from any existing session with no messages, after any
sequence of N `add_message` calls the order values of its messages are
exactly the list `0, 1, ..., N-1`: contiguous from zero, strictly
increasing, duplicate-free and gap-free. -/
theorem append_orders_contiguous (s : Store) (sid : Nat)
    (items : List (String × String × Int))
    (h1 : (get_session s sid).isSome = true)
    (h2 : sessionMessages s sid = []) :
    (sessionMessages (append_all s sid items) sid).map (fun m => m.order)
      = (List.range items.length).map (fun n => Int.ofNat n) := by
  have h0 : (sessionMessages s sid).map (fun m => m.order)
      = (List.range 0).map (fun n => Int.ofNat n) := by simp [h2]
  have hres := append_all_orders_aux sid items s 0 h1 h0
  simpa using hres.2

/-- C2 witness: two appends on a fresh one-session store yield orders 0
and 1. -/
theorem append_orders_contiguous_witness :
    (get_session storeA 0).isSome = true ∧
    sessionMessages storeA 0 = [] ∧
    (sessionMessages
        (append_all storeA 0 [("human", "Hi", 6), ("assistant", "Hello!", 7)]) 0).map
        (fun m => m.order)
      = (List.range ([("human", "Hi", 6), ("assistant", "Hello!", 7)].length)).map
          (fun n => Int.ofNat n) :=
  ⟨rfl, rfl, append_orders_contiguous storeA 0 _ rfl rfl⟩

/-- C5: `update_session` with a patch carrying only `model` returns
`none` on an absent session (creating nothing), and on a present session
changes only `model` and `updated_at`: `system_prompt`, `id`,
`ai_provider` and `created_at` are unchanged, `updated_at` becomes `now`
(strictly later whenever the clock moved forward), and the rest of the
store is untouched. -/
theorem update_session_model_only_frame (s : Store) (sid : Nat) (m : String) (now : Int) :
    (get_session s sid = none → update_session s sid ⟨none, some m⟩ now = none) ∧
    (∀ sess, get_session s sid = some sess →
      ∃ r : Store × DBSession, update_session s sid ⟨none, some m⟩ now = some r ∧
        r.2.system_prompt = sess.system_prompt ∧
        r.2.model = m ∧
        r.2.id = sess.id ∧
        r.2.ai_provider = sess.ai_provider ∧
        r.2.created_at = sess.created_at ∧
        r.2.updated_at = now ∧
        (sess.updated_at < now → sess.updated_at < r.2.updated_at) ∧
        r.1.sessions.map (fun t => t.id) = s.sessions.map (fun t => t.id) ∧
        r.1.messages = s.messages ∧
        r.1.next_id = s.next_id ∧
        get_session r.1 sid = some r.2) := by
  constructor
  · intro hg
    rw [update_session, hg]
  · intro sess hg
    have hid : sess.id = sid := get_session_id hg
    have hupd : update_session s sid ⟨none, some m⟩ now =
        some ({ s with sessions := s.sessions.map (fun t => if t.id == sid then { sess with model := m, updated_at := now } else t) }, { sess with model := m, updated_at := now }) := by
      rw [update_session, hg]
    refine ⟨_, hupd, rfl, rfl, rfl, rfl, rfl, rfl, fun h => h, ?_, rfl, rfl, ?_⟩
    · rw [List.map_map]
      apply List.map_congr_left
      intro t ht
      by_cases h : t.id = sid
      · simp [Function.comp, h, hid]
      · simp [Function.comp, h]
    · have hf : ∀ t : DBSession,
          ((fun t => if t.id == sid
            then { sess with model := m, updated_at := now } else t) t).id = t.id := by
        intro t
        by_cases h : t.id = sid
        · simp [h, hid]
        · simp [h]
      show (s.sessions.map (fun t => if t.id == sid then { sess with model := m, updated_at := now } else t)).find? (fun t => t.id == sid) = some { sess with model := m, updated_at := now }
      rw [find?_map_kept _ _ _ hf]
      rw [get_session] at hg
      rw [hg]
      simp [hid]

/-- C5 witness: a model-only patch on the one-session store. -/
theorem update_session_model_only_frame_witness :
    get_session storeA 0 = some sessA ∧
    (∃ r : Store × DBSession, update_session storeA 0 ⟨none, some "m2"⟩ 9 = some r ∧
      r.2.system_prompt = sessA.system_prompt ∧
      r.2.model = "m2" ∧
      r.2.id = sessA.id ∧
      r.2.ai_provider = sessA.ai_provider ∧
      r.2.created_at = sessA.created_at ∧
      r.2.updated_at = 9 ∧
      (sessA.updated_at < 9 → sessA.updated_at < r.2.updated_at) ∧
      r.1.sessions.map (fun t => t.id) = storeA.sessions.map (fun t => t.id) ∧
      r.1.messages = storeA.messages ∧
      r.1.next_id = storeA.next_id ∧
      get_session r.1 0 = some r.2) :=
  ⟨rfl, (update_session_model_only_frame storeA 0 "m2" 9).2 sessA rfl⟩

/-- C3: `add_message` returns `none` exactly when the session is absent,
and in that case a sequence consisting of that single append leaves the
store unchanged: no message row is created and no session is modified. -/
theorem add_message_not_found (s : Store) (sid : Nat) (r c : String) (n : Int) :
    (add_message s sid r c n = none ↔ get_session s sid = none) ∧
    (get_session s sid = none → append_all s sid [(r, c, n)] = s) := by
  constructor
  · cases hg : get_session s sid with
    | none => simp [add_message, hg]
    | some sess => simp [add_message, hg]
  · intro hg
    simp [append_all, add_message, hg]

/-- C3 witness: on the empty store the session is absent, the append
fails and the store is untouched. -/
theorem add_message_not_found_witness :
    get_session storeE 0 = none ∧
    ((add_message storeE 0 "human" "Hi" 1 = none ↔ get_session storeE 0 = none) ∧
     (get_session storeE 0 = none → append_all storeE 0 [("human", "Hi", 1)] = storeE)) :=
  ⟨rfl, add_message_not_found storeE 0 "human" "Hi" 1⟩

/-- C4: `delete_session` reports whether the session row existed, and
afterwards the session is gone, its message list reads back empty (not an
error), and no message of that session survives: the cascade leaves no
orphans. -/
theorem delete_session_spec (s : Store) (sid : Nat) :
    ((delete_session s sid).2 = true ↔ (get_session s sid).isSome = true) ∧
    get_session (delete_session s sid).1 sid = none ∧
    get_messages_for_session (delete_session s sid).1 sid = [] ∧
    (∀ mm ∈ (delete_session s sid).1.messages, ¬ mm.session_id = sid) ∧
    (delete_session s sid).1.sessions = s.sessions.filter (fun t => !(t.id == sid)) ∧
    (delete_session s sid).1.messages = s.messages.filter (fun mm => !(mm.session_id == sid)) := by
  refine ⟨?_, ?_, ?_, ?_, rfl, rfl⟩
  · show s.sessions.any (fun t => t.id == sid) = true ↔ _
    rw [List.any_eq_true, get_session, List.find?_isSome]
  · show (s.sessions.filter (fun t => !(t.id == sid))).find? (fun t => t.id == sid) = none
    apply List.find?_eq_none.mpr
    intro t ht
    have hkept := (List.mem_filter.mp ht).2
    simp at hkept ⊢
    exact hkept
  · have hempty : sessionMessages (delete_session s sid).1 sid = [] := by
      show (s.messages.filter (fun mm => !(mm.session_id == sid))).filter
          (fun mm => mm.session_id == sid) = []
      rw [List.filter_filter]
      apply List.filter_eq_nil_iff.mpr
      intro mm hm
      simp
    rw [get_messages_for_session, hempty, List.mergeSort_nil]
  · intro mm hm
    have hkept := (List.mem_filter.mp hm).2
    simpa using hkept

/-- C6: the expiry sweep removes exactly the sessions strictly older than
`now - hours`, cascades to their messages — a stored message survives the
sweep if and only if no expired session owns it — and reports the number
of sessions removed, with `hours = 0` clearing every session whose
`updated_at` lies strictly in the past and `hours = 10000` clearing
nothing when all sessions are recent. -/
theorem cleanup_old_sessions_spec (s : Store) (hours now : Int) :
    (∀ t ∈ s.sessions,
      (t ∈ (cleanup_old_sessions s hours now).1.sessions ↔
        ¬ t.updated_at < now - hours * hourMicros)) ∧
    (cleanup_old_sessions s hours now).2
      = (s.sessions.filter (fun t => t.updated_at < now - hours * hourMicros)).length ∧
    (∀ mm ∈ s.messages,
      (mm ∈ (cleanup_old_sessions s hours now).1.messages ↔
        ¬ ∃ t ∈ s.sessions, t.id = mm.session_id ∧
          t.updated_at < now - hours * hourMicros)) ∧
    ((∀ t ∈ s.sessions, t.updated_at < now) →
      (cleanup_old_sessions s 0 now).1.sessions = [] ∧
      (cleanup_old_sessions s 0 now).2 = s.sessions.length) ∧
    ((∀ t ∈ s.sessions, now - 10000 * hourMicros ≤ t.updated_at) →
      (cleanup_old_sessions s 10000 now).1.sessions = s.sessions ∧
      (cleanup_old_sessions s 10000 now).1.messages = s.messages ∧
      (cleanup_old_sessions s 10000 now).2 = 0) := by
  refine ⟨?_, rfl, ?_, ?_, ?_⟩
  · intro t ht
    show t ∈ s.sessions.filter (fun t => !(t.updated_at < now - hours * hourMicros)) ↔ _
    rw [List.mem_filter]
    simp [ht]
  · intro mm hm
    show mm ∈ s.messages.filter (fun mm => !(((s.sessions.filter (fun t => t.updated_at < now - hours * hourMicros)).map (fun t => t.id)).contains mm.session_id)) ↔ _
    rw [List.mem_filter]
    simp [hm, List.elem_iff, List.mem_map, List.mem_filter]
    constructor
    · intro hno t ht hid
      have := hno t ht
      omega
    · intro hno t ht hold
      have := hno t ht
      omega
  · intro hall
    have hz : now - 0 * hourMicros = now := by ring
    constructor
    · show s.sessions.filter (fun t => !(t.updated_at < now - 0 * hourMicros)) = []
      apply List.filter_eq_nil_iff.mpr
      intro t ht
      simp [hz]
      exact hall t ht
    · show (s.sessions.filter (fun t => t.updated_at < now - 0 * hourMicros)).length
        = s.sessions.length
      have hfull : s.sessions.filter (fun t => t.updated_at < now - 0 * hourMicros)
          = s.sessions := by
        apply List.filter_eq_self.mpr
        intro t ht
        simp [hz]
        exact hall t ht
      rw [hfull]
  · intro hall
    have hcut : ∀ t ∈ s.sessions, ¬ t.updated_at < now - 10000 * hourMicros := by
      intro t ht
      have := hall t ht
      omega
    have hkeep : s.sessions.filter (fun t => !(t.updated_at < now - 10000 * hourMicros))
        = s.sessions :=
      List.filter_eq_self.mpr (by intro t ht; simpa using hcut t ht)
    have hdel : s.sessions.filter (fun t => t.updated_at < now - 10000 * hourMicros) = [] :=
      List.filter_eq_nil_iff.mpr (by intro t ht; simpa using hcut t ht)
    refine ⟨hkeep, ?_, ?_⟩
    · show s.messages.filter (fun mm => !(((s.sessions.filter (fun t => t.updated_at < now - 10000 * hourMicros)).map (fun t => t.id)).contains mm.session_id)) = s.messages
      rw [hdel]
      simp
    · show (s.sessions.filter (fun t => t.updated_at < now - 10000 * hourMicros)).length = 0
      rw [hdel]
      rfl

/-- A second session row, older than `sessA`. -/
def sessB : DBSession :=
  { id := 1, ai_provider := "gemini", model := "gemini-pro",
    system_prompt := "x", created_at := 0, updated_at := 0 }

/-- A two-session store used by the expiry witness. -/
def storeB : Store := { sessions := [sessA, sessB], messages := [], next_id := 2 }

/-- A session row recent enough to survive a one-hour sweep at clock
4000000000. -/
def sessD : DBSession :=
  { id := 7, ai_provider := "claude", model := "m", system_prompt := "p",
    created_at := 0, updated_at := 500000000 }

/-- A message owned by the surviving session `sessD`. -/
def msgD : DBMessage :=
  { id := 8, session_id := 7, role := "human", content := "kept",
    created_at := 1, order := 0 }

/-- A message owned by the stale session `sessB`. -/
def msgB : DBMessage :=
  { id := 9, session_id := 1, role := "human", content := "swept",
    created_at := 1, order := 0 }

/-- A store where a one-hour sweep at clock 4000000000 expires `sessB`
but not `sessD`. -/
def storeC : Store :=
  { sessions := [sessD, sessB], messages := [msgD, msgB], next_id := 10 }

/-- C6 witness: on `storeC` a one-hour sweep deletes the stale session
and cascades to its message while keeping the recent session and its
message; on `storeB` at clock 10 a 0-hour sweep clears both sessions and
a 10000-hour sweep clears none. -/
theorem cleanup_old_sessions_spec_witness :
    (∀ t ∈ storeB.sessions, t.updated_at < 10) ∧
    (∀ t ∈ storeB.sessions, 10 - 10000 * hourMicros ≤ t.updated_at) ∧
    msgB ∈ storeC.messages ∧
    (msgB ∈ (cleanup_old_sessions storeC 1 4000000000).1.messages ↔
      ¬ ∃ t ∈ storeC.sessions, t.id = msgB.session_id ∧
        t.updated_at < 4000000000 - 1 * hourMicros) ∧
    msgB ∉ (cleanup_old_sessions storeC 1 4000000000).1.messages ∧
    msgD ∈ (cleanup_old_sessions storeC 1 4000000000).1.messages ∧
    (cleanup_old_sessions storeC 1 4000000000).1.sessions = [sessD] ∧
    ((cleanup_old_sessions storeB 0 10).1.sessions = [] ∧
      (cleanup_old_sessions storeB 0 10).2 = storeB.sessions.length) ∧
    ((cleanup_old_sessions storeB 10000 10).1.sessions = storeB.sessions ∧
      (cleanup_old_sessions storeB 10000 10).1.messages = storeB.messages ∧
      (cleanup_old_sessions storeB 10000 10).2 = 0) :=
  ⟨by decide, by decide, by decide,
   (cleanup_old_sessions_spec storeC 1 4000000000).2.2.1 msgB (by decide),
   by decide, by decide, by decide,
   (cleanup_old_sessions_spec storeB 7 10).2.2.2.1 (by decide),
   (cleanup_old_sessions_spec storeB 7 10).2.2.2.2 (by decide)⟩

/-- C7: `get_messages_for_session` returns the messages of the session
sorted ascending by `order` (a permutation of the owned rows), and the
empty sequence both when the session has no messages and when the session
does not exist (under the foreign-key invariant that every message
references an existing session). -/
theorem get_messages_for_session_spec (s : Store) (sid : Nat) :
    (get_messages_for_session s sid).Pairwise (fun a b => a.order ≤ b.order) ∧
    (get_messages_for_session s sid).Perm (sessionMessages s sid) ∧
    (sessionMessages s sid = [] → get_messages_for_session s sid = []) ∧
    ((∀ mm ∈ s.messages, ∃ t ∈ s.sessions, t.id = mm.session_id) →
      get_session s sid = none → get_messages_for_session s sid = []) := by
  refine ⟨?_, ?_, ?_, ?_⟩
  · have hs : ((sessionMessages s sid).mergeSort
        (fun a b => a.order ≤ b.order)).Pairwise
        (fun a b : DBMessage => (decide (a.order ≤ b.order)) = true) :=
      List.sorted_mergeSort
        (by intro a b c hab hbc; simp only [decide_eq_true_eq] at hab hbc ⊢; omega)
        (by intro a b; simp only [Bool.or_eq_true, decide_eq_true_eq]; exact le_total _ _)
        (sessionMessages s sid)
    exact hs.imp (fun h => of_decide_eq_true h)
  · exact List.mergeSort_perm _ _
  · intro h
    rw [get_messages_for_session, h, List.mergeSort_nil]
  · intro hfk hg
    have hempty : sessionMessages s sid = [] := by
      apply List.filter_eq_nil_iff.mpr
      intro mm hm
      obtain ⟨t, ht, hid⟩ := hfk mm hm
      have hnone := List.find?_eq_none.mp hg t ht
      simp at hnone ⊢
      omega
    rw [get_messages_for_session, hempty, List.mergeSort_nil]

/-- C7 witness: looking up an absent session id on the one-session store
yields the empty, trivially sorted sequence. -/
theorem get_messages_for_session_spec_witness :
    sessionMessages storeA 1 = [] ∧
    (∀ mm ∈ storeA.messages, ∃ t ∈ storeA.sessions, t.id = mm.session_id) ∧
    get_session storeA 1 = none ∧
    (get_messages_for_session storeA 1).Pairwise (fun a b => a.order ≤ b.order) ∧
    (get_messages_for_session storeA 1).Perm (sessionMessages storeA 1) ∧
    get_messages_for_session storeA 1 = [] :=
  ⟨rfl, by simp [storeA], rfl,
   (get_messages_for_session_spec storeA 1).1,
   (get_messages_for_session_spec storeA 1).2.1,
   (get_messages_for_session_spec storeA 1).2.2.2 (by simp [storeA]) rfl⟩

/-- Every stored message is human- or assistant-originated. -/
def roleInv (s : Store) : Prop :=
  ∀ mm ∈ s.messages, mm.role = "human" ∨ mm.role = "assistant"

/-- Inversion of a successful `update_session` call. -/
theorem update_session_some_inv {s : Store} {sid : Nat} {u : SessionUpdate} {now : Int}
    {r : Store × DBSession} (h : update_session s sid u now = some r) :
    ∃ sess, get_session s sid = some sess ∧
      r.2 = { sess with
              system_prompt := match u.system_prompt with
                | some p => p
                | none => sess.system_prompt
              model := match u.model with
                | some mo => mo
                | none => sess.model
              updated_at := now } ∧
      r.1 = { s with sessions := s.sessions.map (fun t => if t.id == sid then r.2 else t) } := by
  cases hg : get_session s sid with
  | none => rw [update_session, hg] at h; cases h
  | some sess =>
    simp only [update_session, hg, Option.some.injEq] at h
    subst h
    exact ⟨sess, rfl, rfl, rfl⟩

/-- C8: the role invariant — every stored message is `"human"` or
`"assistant"` — is preserved by the message endpoint (the only caller of
`add_message`, passing those two literal roles) and by every other store
operation of the program. -/
theorem roleInv_preserved (s : Store) (h : roleInv s) :
    (∀ (sid : Nat) (content aiResponse : String) (n1 n2 : Int) (s' : Store),
      send_message s sid content aiResponse n1 n2 = some s' → roleInv s') ∧
    (∀ d now, roleInv (create_session s d now).1) ∧
    (∀ sid u now r, update_session s sid u now = some r → roleInv r.1) ∧
    (∀ sid, roleInv (delete_session s sid).1) ∧
    (∀ hours now, roleInv (cleanup_old_sessions s hours now).1) := by
  refine ⟨?_, ?_, ?_, ?_, ?_⟩
  · intro sid content aiResponse n1 n2 s' hsend
    cases hg : get_session s sid with
    | none => rw [send_message, hg] at hsend; cases hsend
    | some sess =>
      simp only [send_message, hg] at hsend
      cases ha1 : add_message s sid "human" content n1 with
      | none => simp only [ha1] at hsend; cases hsend
      | some p1 =>
        obtain ⟨s1, x1, m1⟩ := p1
        simp only [ha1] at hsend
        cases ha2 : add_message s1 sid "assistant" aiResponse n2 with
        | none => simp only [ha2] at hsend; cases hsend
        | some p2 =>
          obtain ⟨s2, x2, m2⟩ := p2
          simp only [ha2] at hsend
          have hs2 : s2 = s' := by simpa using hsend
          obtain ⟨e1, hg1, hx1, hm1, hst1⟩ := add_message_some_inv ha1
          obtain ⟨e2, hg2, hx2, hm2, hst2⟩ := add_message_some_inv ha2
          subst hs2
          intro mm hm
          rw [hst2] at hm
          have hm' : mm ∈ s1.messages ++ [m2] := hm
          rcases List.mem_append.mp hm' with hm1' | hm1'
          · rw [hst1] at hm1'
            rcases List.mem_append.mp hm1' with hm0 | hm0
            · exact h mm hm0
            · left
              rw [List.mem_singleton.mp hm0, hm1]
          · right
            rw [List.mem_singleton.mp hm1', hm2]
  · intro d now mm hm
    exact h mm hm
  · intro sid u now r hr mm hm
    obtain ⟨sess, hg, hx, hst⟩ := update_session_some_inv hr
    rw [hst] at hm
    exact h mm hm
  · intro sid mm hm
    exact h mm (List.mem_filter.mp hm).1
  · intro hours now mm hm
    exact h mm (List.mem_filter.mp hm).1

/-- C8 witness: the invariant holds on the fresh one-session store and is
carried through all operations. -/
theorem roleInv_preserved_witness :
    roleInv storeA ∧
    ((∀ (sid : Nat) (content aiResponse : String) (n1 n2 : Int) (s' : Store),
      send_message storeA sid content aiResponse n1 n2 = some s' → roleInv s') ∧
    (∀ d now, roleInv (create_session storeA d now).1) ∧
    (∀ sid u now r, update_session storeA sid u now = some r → roleInv r.1) ∧
    (∀ sid, roleInv (delete_session storeA sid).1) ∧
    (∀ hours now, roleInv (cleanup_old_sessions storeA hours now).1)) :=
  ⟨by simp [roleInv, storeA], roleInv_preserved storeA (by simp [roleInv, storeA])⟩

/-- `updated_at` never precedes `created_at` on any session row. -/
def tsInv (s : Store) : Prop :=
  ∀ t ∈ s.sessions, t.created_at ≤ t.updated_at

/-- C9: `create_session` establishes `created_at = updated_at = now`, and
— assuming the clock never runs backwards across operations — the
invariant `created_at ≤ updated_at` is preserved by every store
operation, `update_session` and `add_message` being the two that refresh
`updated_at`. -/
theorem tsInv_preserved (s : Store) (h : tsInv s) :
    (∀ d now, tsInv (create_session s d now).1 ∧
      (create_session s d now).2.created_at = now ∧
      (create_session s d now).2.updated_at = now) ∧
    (∀ sid u now r, (∀ t ∈ s.sessions, t.updated_at ≤ now) →
      update_session s sid u now = some r → tsInv r.1) ∧
    (∀ sid rc cc now p, (∀ t ∈ s.sessions, t.updated_at ≤ now) →
      add_message s sid rc cc now = some p → tsInv p.1) ∧
    (∀ sid, tsInv (delete_session s sid).1) ∧
    (∀ hours now, tsInv (cleanup_old_sessions s hours now).1) := by
  refine ⟨?_, ?_, ?_, ?_, ?_⟩
  · intro d now
    refine ⟨?_, rfl, rfl⟩
    intro t ht
    have ht' : t ∈ s.sessions ++
        [(create_session s d now).2] := ht
    rcases List.mem_append.mp ht' with h0 | h0
    · exact h t h0
    · rw [List.mem_singleton.mp h0]
      exact le_refl now
  · intro sid u now r hclock hr
    obtain ⟨sess, hg, hx, hst⟩ := update_session_some_inv hr
    have hmem : sess ∈ s.sessions := List.mem_of_find?_eq_some hg
    intro t ht
    rw [hst] at ht
    obtain ⟨a, ha, hat⟩ := List.mem_map.mp ht
    by_cases hcase : a.id == sid
    · rw [if_pos hcase] at hat
      rw [← hat, hx]
      exact le_trans (h sess hmem) (hclock sess hmem)
    · rw [if_neg hcase] at hat
      rw [← hat]
      exact h a ha
  · intro sid rc cc now p hclock hp
    obtain ⟨sess, hg, hx, hm, hst⟩ := add_message_some_inv hp
    have hmem : sess ∈ s.sessions := List.mem_of_find?_eq_some hg
    intro t ht
    rw [hst] at ht
    have ht' : t ∈ s.sessions.map (fun t => if t.id == sid then p.2.1 else t) := ht
    obtain ⟨a, ha, hat⟩ := List.mem_map.mp ht'
    by_cases hcase : a.id == sid
    · rw [if_pos hcase] at hat
      rw [← hat, hx]
      exact le_trans (h sess hmem) (hclock sess hmem)
    · rw [if_neg hcase] at hat
      rw [← hat]
      exact h a ha
  · intro sid t ht
    exact h t (List.mem_filter.mp ht).1
  · intro hours now t ht
    exact h t (List.mem_filter.mp ht).1

/-- C9 witness: the invariant holds on the one-session store (both
timestamps are 5) and is carried through all operations at clock 9. -/
theorem tsInv_preserved_witness :
    tsInv storeA ∧
    ((∀ d now, tsInv (create_session storeA d now).1 ∧
      (create_session storeA d now).2.created_at = now ∧
      (create_session storeA d now).2.updated_at = now) ∧
    (∀ sid u now r, (∀ t ∈ storeA.sessions, t.updated_at ≤ now) →
      update_session storeA sid u now = some r → tsInv r.1) ∧
    (∀ sid rc cc now p, (∀ t ∈ storeA.sessions, t.updated_at ≤ now) →
      add_message storeA sid rc cc now = some p → tsInv p.1) ∧
    (∀ sid, tsInv (delete_session storeA sid).1) ∧
    (∀ hours now, tsInv (cleanup_old_sessions storeA hours now).1)) :=
  ⟨by simp [tsInv, storeA, sessA], tsInv_preserved storeA (by simp [tsInv, storeA, sessA])⟩

/-- C10: `create_session` treats an empty-string model like an omitted
model: the stored model is the provider-specific default, never the empty
string. -/
theorem create_session_blank_model_default (s : Store) (p : AIProvider)
    (mo : Option String) (sp : String) (now : Int)
    (h : mo = none ∨ mo = some "") :
    (create_session s ⟨p, mo, sp⟩ now).2.model =
      (if p = AIProvider.claude then default_claude_model else default_gemini_model) ∧
    (create_session s ⟨p, mo, sp⟩ now).2.model ≠ "" := by
  have hm : (create_session s ⟨p, mo, sp⟩ now).2.model = resolvedModel p mo := rfl
  rw [hm]
  have hres : resolvedModel p mo =
      (if p = AIProvider.claude then default_claude_model else default_gemini_model) := by
    rcases h with h | h <;> subst h <;> simp [resolvedModel, pyFalsy]
  refine ⟨hres, ?_⟩
  rw [hres]
  cases p <;> simp [default_claude_model, default_gemini_model]

/-- C10 witness: the empty store, provider claude, omitted model. -/
theorem create_session_blank_model_default_witness :
    ((none : Option String) = none ∨ (none : Option String) = some "") ∧
    ((create_session storeE ⟨AIProvider.claude, none, "sys"⟩ 3).2.model =
      (if AIProvider.claude = AIProvider.claude
        then default_claude_model else default_gemini_model) ∧
     (create_session storeE ⟨AIProvider.claude, none, "sys"⟩ 3).2.model ≠ "") :=
  ⟨Or.inl rfl,
   create_session_blank_model_default storeE AIProvider.claude none "sys" 3 (Or.inl rfl)⟩

end PromptHub
